import Mathlib

/-!
Verification development for an MCP (tool-server) client.

The program is a single-file Python client (`mcpclient.py`) providing:
HTTP transport with bounded retry (`http_get`, `http_post`), per-server
tool discovery with schema-version caching (`discover_tools`), JSON-Schema
argument validation (`validate_args_against_tool`), and an interactive
session loop (`agent_loop`).  This file gives a shallow embedding of those
functions over an explicit JSON value type and proves the spec's claims
about them.  Network effects are modelled by oracles: a per-attempt HTTP
outcome for the transport, a per-server outcome for discovery, and
per-turn LLM / tool-call outcomes for the session loop.
-/

/-! ## JSON values

Parsed JSON data (what Python's `json` module and `requests`' `.json()`
produce).  Numbers are modelled as integers; fractional values play no
role in any claim.  Objects keep insertion order, like Python dicts. -/

mutual

inductive Json where
  | null
  | bool (b : Bool)
  | num (n : Int)
  | str (s : String)
  | arr (elems : JsonArr)
  | obj (entries : JsonObj)
  deriving DecidableEq

inductive JsonArr where
  | nil
  | cons (hd : Json) (tl : JsonArr)
  deriving DecidableEq

inductive JsonObj where
  | nil
  | cons (key : String) (val : Json) (tl : JsonObj)
  deriving DecidableEq

end

/-- Dictionary lookup: `d.get(k)` / `d[k]` on a Python dict (first match). -/
def Json.getKey : JsonObj → String → Option Json
  | .nil, _ => none
  | .cons k v tl, key => if k = key then some v else Json.getKey tl key

/-- Dictionary assignment `d[k] = v`: overwrite the existing binding in
place, or append a new one at the end (Python dict insertion order). -/
def Json.setKey : JsonObj → String → Json → JsonObj
  | .nil, key, v => .cons key v .nil
  | .cons k w tl, key, v =>
      if k = key then .cons key v tl else .cons k w (Json.setKey tl key v)

/-- Python truthiness of a JSON value: `None`, `False`, `0`, `""`, `[]`
and `\x7b\x7d` are falsy, everything else truthy. -/
def jsonFalsy : Json → Bool
  | .null => true
  | .bool b => !b
  | .num n => decide (n = 0)
  | .str s => decide (s = "")
  | .arr .nil => true
  | .arr (.cons _ _) => false
  | .obj .nil => true
  | .obj (.cons _ _ _) => false

/-- Truthiness of `d.get(k)`: a missing key yields `None`, which is falsy. -/
def optFalsy : Option Json → Bool
  | none => true
  | some j => jsonFalsy j

/-! ## Transport: `http_post`

One HTTP attempt either raises before any response exists (connection
error / timeout: `noResponse`) or yields a response with a status class
(`ok` = 2xx, so `raise_for_status` passes) and a body that may or may not
parse as JSON (`r.json()` raises when it does not). -/

structure HttpResponse where
  ok : Bool
  body : Option Json
  deriving DecidableEq

inductive AttemptOutcome where
  | noResponse
  | response (r : HttpResponse)
  deriving DecidableEq

/-- The final recovery of `http_post` after the retry budget is spent:
`return r.json()` on the last response the loop ever received, re-raising
when there is no such response (the variable `r` was never bound) or its
body does not parse. -/
def post_salvage : Option HttpResponse → Except Unit Json
  | none => .error ()
  | some r =>
      match r.body with
      | some j => .ok j
      | none => .error ()

/-- The retry loop of `http_post`, one step per attempt.  The first
argument is the current attempt's outcome, the second the outcomes of the
remaining attempts (empty on the last attempt), the third the last
response received so far (Python's loop variable `r`, which survives
iterations).  A 2xx response with a parseable body returns immediately;
any other outcome retries while attempts remain and otherwise falls into
`post_salvage`. -/
def http_post_run : AttemptOutcome → List AttemptOutcome → Option HttpResponse → Except Unit Json
  | .noResponse, [], last => post_salvage last
  | .noResponse, a :: rest, last => http_post_run a rest last
  | .response r, rest, _ =>
      if r.ok then
        match r.body with
        | some j => .ok j
        | none =>
            match rest with
            | [] => post_salvage (some r)
            | a :: more => http_post_run a more (some r)
      else
        match rest with
        | [] => post_salvage (some r)
        | a :: more => http_post_run a more (some r)

/-- The `http_post` helper: runs `MAX_RETRIES + 1` attempts (in the
deployed configuration `rest.length = MAX_RETRIES = 2`).  `Except.error`
models the transport exception propagating to the caller. -/
def http_post (first : AttemptOutcome) (rest : List AttemptOutcome) : Except Unit Json :=
  http_post_run first rest none

/-- An attempt fails when no response arrives, the status is not 2xx, or
the body does not parse as JSON (each makes the loop body raise). -/
def attemptFails : AttemptOutcome → Bool
  | .noResponse => true
  | .response r => !r.ok || r.body.isNone

/-- The value of the loop variable `r` after processing a list of
attempts starting from a given prior value: the last response received. -/
def lastResp : Option HttpResponse → List AttemptOutcome → Option HttpResponse
  | last, [] => last
  | last, .noResponse :: rest => lastResp last rest
  | _, .response r :: rest => lastResp (some r) rest

/-! ## Tool discovery and schema-version caching

A tool descriptor is a JSON dictionary (the entries of `/list_tools`'
`tools` array).  The cache maps a server URL to its last stored
`(version, tools)` pair, mirroring the module-level `tool_cache` dict. -/

abbrev Tool := JsonObj

structure CacheEntry where
  version : Option Json
  tools : List Tool
  deriving DecidableEq

abbrev Cache := List (String × CacheEntry)

/-- Lookup `tool_cache.get(url)` (first match). -/
def cacheGet : Cache → String → Option CacheEntry
  | [], _ => none
  | (k, e) :: tl, url => if k = url then some e else cacheGet tl url

/-- Assignment `tool_cache[url] = entry`: overwrite in place or append. -/
def cacheSet : Cache → String → CacheEntry → Cache
  | [], url, e => [(url, e)]
  | (k, w) :: tl, url, e =>
      if k = url then (url, e) :: tl else (k, w) :: cacheSet tl url e

/-- What one server contributes over the network during one discovery
pass: the `/initialize` probe fails, the `/list_tools` query fails, or
both succeed with a tool list (`resp.get("tools", [])`, already
defaulted) and a schema version (`resp.get("tool_schema_version")`,
`none` when the key is absent). -/
inductive ServerOutcome where
  | initFail
  | listFail
  | ok (tools : List Tool) (version : Option Json)

/-- Tagging a tool with its owning server: `t_copy = dict(t)` followed by
`t_copy["_server_url"] = url`; the original descriptor is untouched. -/
def tagTool (url : String) (t : Tool) : Tool :=
  Json.setKey t "_server_url" (Json.str url)

/-- The per-server body of `discover_tools`: probe, fetch the catalog,
reuse the cache entry when the reported version equals the cached one,
otherwise store the freshly fetched pair; then tag every resulting tool
with the owning server.  A failing probe or catalog query skips the
server (the exception is caught, a warning is logged). -/
def discover_step (env : String → ServerOutcome) (cache : Cache) (url : String) :
    Cache × List Tool :=
  match env url with
  | .initFail => (cache, [])
  | .listFail => (cache, [])
  | .ok fetched version =>
      match cacheGet cache url with
      | some entry =>
          if entry.version = version then
            (cache, entry.tools.map (tagTool url))
          else
            (cacheSet cache url ⟨version, fetched⟩, fetched.map (tagTool url))
      | none => (cacheSet cache url ⟨version, fetched⟩, fetched.map (tagTool url))

/-- The full `discover_tools`: process the configured servers in order,
threading the cache and appending each server's tagged tools.  The
function is total: an unreachable server never raises, it only skips. -/
def discover_tools (env : String → ServerOutcome) : List String → Cache → Cache × List Tool
  | [], cache => (cache, [])
  | url :: rest, cache =>
      let s := discover_step env cache url
      let r := discover_tools env rest s.1
      (r.1, s.2 ++ r.2)

/-- A server is reachable in a pass when both the probe and the catalog
query succeed. -/
def isReachable (env : String → ServerOutcome) (url : String) : Bool :=
  match env url with
  | .ok _ _ => true
  | _ => false

/-! ## Argument validation

Model of the external `jsonschema` library's `validate` (not part of
this repository), restricted to the keyword fragment the spec names:
`type`, `required` and `enum` checks with standard JSON-Schema
semantics.  Violations produce a non-empty human-readable message
(`ValidationError.message`); `none` means the instance validates. -/

/-- Does a JSON value satisfy a `type` keyword value? -/
def typeMatches (ty : String) (v : Json) : Bool :=
  match v with
  | .obj _ => ty == "object"
  | .arr _ => ty == "array"
  | .str _ => ty == "string"
  | .num _ => ty == "number" || ty == "integer"
  | .bool _ => ty == "boolean"
  | .null => ty == "null"

/-- The `type` keyword: when the schema declares a type name, the
instance must match it. -/
def checkType (schema : JsonObj) (inst : Json) : Option String :=
  match Json.getKey schema "type" with
  | some (.str ty) =>
      if typeMatches ty inst then none
      else some ("value is not of type " ++ ty)
  | _ => none

/-- The `required` keyword applied to an object instance: the first
declared name missing from the instance yields the violation. -/
def requiredErr : JsonArr → JsonObj → Option String
  | .nil, _ => none
  | .cons (.str name) tl, entries =>
      if (Json.getKey entries name).isSome then requiredErr tl entries
      else some ("missing required property " ++ name)
  | .cons _ tl, entries => requiredErr tl entries

/-- The `required` keyword: only constrains object instances. -/
def checkRequired (schema : JsonObj) (inst : Json) : Option String :=
  match Json.getKey schema "required", inst with
  | some (.arr reqs), .obj entries => requiredErr reqs entries
  | _, _ => none

/-- Membership of an instance in an `enum` list. -/
def enumHas : JsonArr → Json → Bool
  | .nil, _ => false
  | .cons v tl, inst => decide (v = inst) || enumHas tl inst

/-- The `enum` keyword: the instance must equal one of the listed values. -/
def checkEnum (schema : JsonObj) (inst : Json) : Option String :=
  match Json.getKey schema "enum" with
  | some (.arr vs) =>
      if enumHas vs inst then none
      else some "value is not one of the enumerated values"
  | _ => none

/-- Validate an instance against a schema: the first violated keyword
reports.  A non-object schema constrains nothing in this fragment. -/
def jsValidate (schema inst : Json) : Option String :=
  match schema with
  | .obj s => (checkType s inst <|> checkRequired s inst) <|> checkEnum s inst
  | _ => none

/-- The helper `validate_args_against_tool`: validate `args` against the tool's
declared `args_schema`, defaulting to the schema accepting any object
when the tool declares none; return `none` on success and the violation
message on `ValidationError`. -/
def validate_args_against_tool (tool : Tool) (args : Json) : Option String :=
  let schema := (Json.getKey tool "args_schema").getD
    (Json.obj (.cons "type" (Json.str "object") .nil))
  jsValidate schema args

/-! ## Session orchestrator: one turn of `agent_loop`

The per-turn network effects are oracles: the outcome of the decision
LLM call, the outcome of the tool-invocation POST (a function of the
values the code passes to `call_tool_on_server`), and the outcome of the
follow-up summarization LLM call.  `json.loads` (external library) is an
abstract parser returning `none` exactly when its argument is not
syntactically valid JSON. -/

/-- Model of the external Python builtin `str.lower()` (ASCII case fold,
which covers the `"quit"` / `"exit"` comparison it is used for). -/
def pyLower (s : String) : String := ⟨s.data.map Char.toLower⟩

/-- Python whitespace stripped by `str.strip()`. -/
def pyIsSpace (c : Char) : Bool :=
  c = ' ' || c = '\t' || c = '\n' || c = '\r' || c = '\x0b' || c = '\x0c'

/-- Model of the external Python builtin `str.strip()`. -/
def pyStrip (s : String) : String :=
  ⟨((s.data.dropWhile pyIsSpace).reverse.dropWhile pyIsSpace).reverse⟩

structure TurnEnv where
  llm1 : Except Unit String
  toolPost : Json → Json → Json → Except Unit Json
  llm2 : Except Unit String

/-- Everything one iteration of the `while` loop can do, by the `print`
/ `continue` / `break` it ends with.  `crash` is an uncaught exception
propagating out of the loop (terminating the process). -/
inductive TurnResult where
  | quit
  | llmError
  | assistantText (raw : String)
  | noSuitableTool
  | unknownAction (decision : Json)
  | incompleteToolCall (decision : Json)
  | toolNotFound
  | validationFailed (msg : String)
  | toolCallFailed
  | summarized (toolResult : Json) (reply : String)
  | rawToolResult (toolResult : Json)
  | crash
  deriving DecidableEq

/-- One iteration of the `while True` body of `agent_loop`, as a pure
function of the oracles.  The second component records whether the
iteration performed the tool-invocation POST (`call_tool_on_server`).
`decision.get("action")` on a JSON value that is not an object raises
`AttributeError`, which no handler catches: that is the `crash` branch.
The tool lookup compares `t["name"]` and `t["_server_url"]` against the
decision's fields; every discovered tool carries both keys (discovery
sets `_server_url`, and `agent_loop` reads `t["name"]` at startup). -/
def run_turn (parseJson : String → Option Json) (env : TurnEnv) (tools : List Tool)
    (raw_input : String) : TurnResult × Bool :=
  let user_input := pyStrip raw_input
  if pyLower user_input = "quit" ∨ pyLower user_input = "exit" then (.quit, false)
  else
    match env.llm1 with
    | .error _ => (.llmError, false)
    | .ok llm_reply =>
        match parseJson llm_reply with
        | none => (.assistantText llm_reply, false)
        | some (.obj d) =>
            let action := Json.getKey d "action"
            if action = some (.str "none") then (.noSuitableTool, false)
            else if action ≠ some (.str "use_tool") then (.unknownAction (.obj d), false)
            else
              let tool_name := Json.getKey d "tool"
              let server_url := Json.getKey d "server_url"
              let args := (Json.getKey d "args").getD (.obj .nil)
              if optFalsy tool_name ∨ optFalsy server_url then
                (.incompleteToolCall (.obj d), false)
              else
                match tools.find? (fun t =>
                    decide (Json.getKey t "name" = tool_name) &&
                    decide (Json.getKey t "_server_url" = server_url)) with
                | none => (.toolNotFound, false)
                | some tool_def =>
                    match validate_args_against_tool tool_def args with
                    | some err => (.validationFailed err, false)
                    | none =>
                        match env.toolPost (server_url.getD .null) (tool_name.getD .null) args with
                        | .error _ => (.toolCallFailed, true)
                        | .ok tool_result =>
                            match env.llm2 with
                            | .ok final_reply => (.summarized tool_result final_reply, true)
                            | .error _ => (.rawToolResult tool_result, true)
        | some _ => (.crash, false)

/-- The `while True` loop over a sequence of turns (one user input and
one oracle per turn).  `quit` breaks the loop; `crash` ends the trace
with the uncaught exception; every other result is reported and the loop
continues with the next turn. -/
def session_loop (parseJson : String → Option Json) (tools : List Tool) :
    List (String × TurnEnv) → List TurnResult
  | [] => []
  | (input, env) :: rest =>
      match run_turn parseJson env tools input with
      | (.quit, _) => []
      | (.crash, _) => [.crash]
      | (r, _) => r :: session_loop parseJson tools rest

/-- The whole `agent_loop`: discover tools, exit immediately when none
were discovered (`none`), otherwise run the session over the turns. -/
def agent_loop (parseJson : String → Option Json) (envd : String → ServerOutcome)
    (cache : Cache) (server_urls : List String) (turns : List (String × TurnEnv)) :
    Option (List TurnResult) :=
  let tools := (discover_tools envd server_urls cache).2
  if tools.isEmpty then none
  else some (session_loop parseJson tools turns)

/-! ## Concrete fixtures used by closed statements -/

/-- A concrete parser recognising exactly the text of a two-element JSON
array (a reply that is valid JSON but not a JSON object). -/
def cexParse : String → Option Json := fun s =>
  if s = "[1, 2]" then
    some (Json.arr (.cons (Json.num 1) (.cons (Json.num 2) .nil)))
  else none

/-- A turn whose decision LLM call returns the array reply. -/
def cexEnv : TurnEnv :=
  ⟨Except.ok "[1, 2]", fun _ _ _ => Except.error (), Except.error ()⟩

/-- A follow-up turn whose decision LLM call fails. -/
def cexEnvNext : TurnEnv :=
  ⟨Except.error (), fun _ _ _ => Except.error (), Except.error ()⟩

/-- A one-tool catalog for the session fixtures. -/
def cexTool : Tool :=
  .cons "name" (Json.str "echo") (.cons "_server_url" (Json.str "http://s") .nil)

/-- A tool whose schema requires the property `a` of an object. -/
def vTool : Tool :=
  .cons "name" (Json.str "t")
    (.cons "_server_url" (Json.str "http://s")
      (.cons "args_schema"
        (Json.obj (.cons "type" (Json.str "object")
          (.cons "required" (Json.arr (.cons (Json.str "a") .nil)) .nil)))
        .nil))

/-- A complete use-tool decision whose `args` object is empty (and so
violates `vTool`'s schema). -/
def vDecision : Json :=
  Json.obj (.cons "action" (Json.str "use_tool")
    (.cons "tool" (Json.str "t")
      (.cons "server_url" (Json.str "http://s")
        (.cons "args" (Json.obj .nil) .nil))))

/-- A concrete parser recognising exactly the text of `vDecision`. -/
def vParse : String → Option Json := fun s => if s = "D" then some vDecision else none

/-- A turn whose decision LLM call returns the `vDecision` text. -/
def vEnv : TurnEnv := ⟨Except.ok "D", fun _ _ _ => Except.ok (Json.obj .nil), Except.ok "done"⟩

/-- A turn whose decision LLM call returns prose. -/
def wEnv : TurnEnv :=
  ⟨Except.ok "plain text", fun _ _ _ => Except.error (), Except.error ()⟩

/-! ## Helper lemmas -/

/-- Exhausted retry loop: when every attempt fails, `http_post_run` ends
in the salvage step on the last response received. -/
theorem http_post_run_allFail :
    ∀ (rest : List AttemptOutcome) (first : AttemptOutcome) (last : Option HttpResponse),
      attemptFails first = true → (∀ a ∈ rest, attemptFails a = true) →
      http_post_run first rest last = post_salvage (lastResp last (first :: rest)) := by
  intro rest
  induction rest with
  | nil =>
      intro first last hf _
      cases first with
      | noResponse => simp [http_post_run, lastResp]
      | response r =>
          obtain ⟨ok, body⟩ := r
          cases ok <;> cases body <;>
            simp_all [http_post_run, lastResp, attemptFails, post_salvage]
  | cons a rest ih =>
      intro first last hf hrest
      have ha : attemptFails a = true := hrest a (List.mem_cons_self a rest)
      have hrest' : ∀ b ∈ rest, attemptFails b = true :=
        fun b hb => hrest b (List.mem_cons_of_mem a hb)
      cases first with
      | noResponse =>
          simp only [http_post_run, lastResp]
          exact ih a last ha hrest'
      | response r =>
          obtain ⟨ok, body⟩ := r
          cases ok <;> cases body <;>
            simp_all [http_post_run, lastResp, attemptFails, post_salvage]

/-- Setting a key in a JSON dictionary makes lookup of that key return
the new value. -/
theorem Json.getKey_setKey_self : ∀ (o : JsonObj) (k : String) (v : Json),
    Json.getKey (Json.setKey o k v) k = some v
  | .nil, k, v => by simp [Json.setKey, Json.getKey]
  | .cons k2 w tl, k, v => by
      by_cases h : k2 = k
      · simp [Json.setKey, Json.getKey, h]
      · simp [Json.setKey, Json.getKey, h, Json.getKey_setKey_self tl k v]

/-- Cache lookup after a cache store. -/
theorem cacheGet_cacheSet (c : Cache) (url k : String) (e : CacheEntry) :
    cacheGet (cacheSet c url e) k = if k = url then some e else cacheGet c k := by
  induction c with
  | nil =>
      by_cases h : url = k
      · subst h; simp [cacheSet, cacheGet]
      · simp [cacheSet, cacheGet, h, Ne.symm h]
  | cons hd tl ih =>
      obtain ⟨k2, w⟩ := hd
      by_cases h1 : k2 = url
      · subst h1
        by_cases h2 : k2 = k
        · subst h2; simp [cacheSet, cacheGet]
        · simp [cacheSet, cacheGet, h2, Ne.symm h2]
      · by_cases h2 : k2 = k
        · subst h2
          simp [cacheSet, cacheGet, h1]
        · simp [cacheSet, cacheGet, h1, h2, ih]

/-- An unreachable server leaves the cache untouched and contributes no
tools. -/
theorem discover_step_unreachable (env : String → ServerOutcome) (c : Cache) (url : String)
    (h : isReachable env url = false) : discover_step env c url = (c, []) := by
  unfold discover_step
  unfold isReachable at h
  cases henv : env url <;> simp_all

/-! ## Claims -/

/-- C1: for every POST whose retry budget is exhausted (every attempt
fails), `http_post` ends in the salvage step on the final HTTP response:
if that response has a body that parses as JSON the body is returned even
though the status was a failure, and a transport error is raised only
when the final response has no parseable body (or no response was ever
received). -/
theorem http_post_exhausted_salvages_body (first : AttemptOutcome)
    (rest : List AttemptOutcome)
    (hfail : ∀ a ∈ first :: rest, attemptFails a = true) :
    http_post first rest = post_salvage (lastResp none (first :: rest)) ∧
    (∀ r j, lastResp none (first :: rest) = some r → r.body = some j →
      http_post first rest = Except.ok j) ∧
    (∀ e, http_post first rest = Except.error e →
      ∀ r, lastResp none (first :: rest) = some r → r.body = none) := by
  have heq : http_post first rest = post_salvage (lastResp none (first :: rest)) :=
    http_post_run_allFail rest first none
      (hfail first (List.mem_cons_self first rest))
      (fun a ha => hfail a (List.mem_cons_of_mem first ha))
  refine ⟨heq, ?_, ?_⟩
  · intro r j hr hb
    rw [heq, hr]
    simp [post_salvage, hb]
  · intro e he r hr
    rw [heq, hr] at he
    cases hb : r.body with
    | none => rfl
    | some j => simp [post_salvage, hb] at he

/-- Witness for C1: three failing attempts, the first being a non-2xx
response carrying a JSON body; the body is returned. -/
theorem http_post_exhausted_salvages_body_witness :
    http_post (AttemptOutcome.response ⟨false, some (Json.num 7)⟩)
      [AttemptOutcome.noResponse, AttemptOutcome.noResponse] = Except.ok (Json.num 7) :=
  (http_post_exhausted_salvages_body
      (AttemptOutcome.response ⟨false, some (Json.num 7)⟩)
      [AttemptOutcome.noResponse, AttemptOutcome.noResponse]
      (by decide)).2.1
    ⟨false, some (Json.num 7)⟩ (Json.num 7) (by decide) rfl

/-- C2: a server reporting an unchanged schema version on a second
discovery call has its freshly fetched list discarded: the second call's
contribution and the cache are computed from the cached entry alone
(`tools2` is arbitrary and absent from the conclusion), so the second
call's tool list equals the first call's and the cache entry is reused
unchanged. -/
theorem discover_same_version_reuses_cached_list
    (env1 env2 : String → ServerOutcome) (url : String) (c0 : Cache)
    (tools1 tools2 : List Tool) (v : Option Json)
    (h1 : env1 url = .ok tools1 v) (h2 : env2 url = .ok tools2 v) :
    (discover_step env2 (discover_step env1 c0 url).1 url).2 =
      (discover_step env1 c0 url).2 ∧
    (discover_step env2 (discover_step env1 c0 url).1 url).1 =
      (discover_step env1 c0 url).1 ∧
    (discover_tools env2 [url] (discover_tools env1 [url] c0).1).2 =
      (discover_tools env1 [url] c0).2 := by
  have key : (discover_step env2 (discover_step env1 c0 url).1 url).2 =
        (discover_step env1 c0 url).2 ∧
      (discover_step env2 (discover_step env1 c0 url).1 url).1 =
        (discover_step env1 c0 url).1 := by
    unfold discover_step
    rw [h1, h2]
    cases hc : cacheGet c0 url with
    | none =>
        simp only [hc]
        have : cacheGet (cacheSet c0 url ⟨v, tools1⟩) url = some ⟨v, tools1⟩ := by
          rw [cacheGet_cacheSet]; simp
        simp [this]
    | some entry =>
        by_cases hv : entry.version = v
        · simp [hc, hv]
        · simp only [hc, if_neg hv]
          have : cacheGet (cacheSet c0 url ⟨v, tools1⟩) url = some ⟨v, tools1⟩ := by
            rw [cacheGet_cacheSet]; simp
          simp [this]
  refine ⟨key.1, key.2, ?_⟩
  simp only [discover_tools]
  simp [key.1, key.2]

/-- Witness for C2: a second call reporting the same version but a
different (truncated) tool list still contributes the originally cached
tool. -/
theorem discover_same_version_reuses_cached_list_witness :
    (discover_step (fun _ => ServerOutcome.ok []
        (some (Json.str "v1")))
      (discover_step (fun _ => ServerOutcome.ok [JsonObj.cons "name" (Json.str "t1") .nil]
        (some (Json.str "v1"))) [] "http://s").1 "http://s").2 =
    (discover_step (fun _ => ServerOutcome.ok [JsonObj.cons "name" (Json.str "t1") .nil]
        (some (Json.str "v1"))) [] "http://s").2 :=
  (discover_same_version_reuses_cached_list
    (fun _ => ServerOutcome.ok [JsonObj.cons "name" (Json.str "t1") .nil]
      (some (Json.str "v1")))
    (fun _ => ServerOutcome.ok [] (some (Json.str "v1")))
    "http://s" [] [JsonObj.cons "name" (Json.str "t1") .nil] []
    (some (Json.str "v1")) rfl rfl).1

/-- C3: a server reporting a version different from the cached one (or
with no cache entry at all) has its entry replaced wholesale by the
freshly fetched pair: afterwards the entry is exactly the new
`(version, tools)` pair, and the contribution is exactly the new tools
tagged with the server. -/
theorem discover_version_mismatch_replaces
    (env : String → ServerOutcome) (url : String) (c : Cache)
    (fetched : List Tool) (v : Option Json)
    (h : env url = .ok fetched v)
    (hmiss : ∀ e, cacheGet c url = some e → e.version ≠ v) :
    cacheGet (discover_step env c url).1 url = some ⟨v, fetched⟩ ∧
    (discover_step env c url).2 = fetched.map (tagTool url) := by
  unfold discover_step
  rw [h]
  cases hc : cacheGet c url with
  | none =>
      simp only [hc]
      refine ⟨?_, by trivial⟩
      rw [cacheGet_cacheSet]; simp
  | some entry =>
      have hv : ¬entry.version = v := hmiss entry hc
      simp only [hc, if_neg hv]
      refine ⟨?_, by trivial⟩
      rw [cacheGet_cacheSet]; simp

/-- Witness for C3: a cached entry at version v1 is fully replaced when
the server reports v2. -/
theorem discover_version_mismatch_replaces_witness :
    cacheGet (discover_step
      (fun _ => ServerOutcome.ok [JsonObj.cons "name" (Json.str "t2") .nil]
        (some (Json.str "v2")))
      [("http://s", ⟨some (Json.str "v1"), [JsonObj.cons "name" (Json.str "t1") .nil]⟩)]
      "http://s").1 "http://s" =
      some ⟨some (Json.str "v2"), [JsonObj.cons "name" (Json.str "t2") .nil]⟩ :=
  (discover_version_mismatch_replaces
    (fun _ => ServerOutcome.ok [JsonObj.cons "name" (Json.str "t2") .nil]
      (some (Json.str "v2")))
    "http://s"
    [("http://s", ⟨some (Json.str "v1"), [JsonObj.cons "name" (Json.str "t1") .nil]⟩)]
    [JsonObj.cons "name" (Json.str "t2") .nil] (some (Json.str "v2"))
    rfl (by intro e he; simp [cacheGet] at he; subst he; decide)).1

/-- C4: discovery over a list of servers of which some are unreachable
is the same as discovery over the reachable ones alone (the function is
total, so an unreachable server never raises), it returns the empty list
when no server is reachable, and every returned tool is tagged with the
reachable server that owns it. -/
theorem discover_returns_reachable_subset (env : String → ServerOutcome)
    (urls : List String) (c : Cache) :
    discover_tools env (urls.filter (isReachable env)) c = discover_tools env urls c ∧
    ((∀ u ∈ urls, isReachable env u = false) → (discover_tools env urls c).2 = []) ∧
    (∀ t ∈ (discover_tools env urls c).2,
      ∃ u, u ∈ urls ∧ isReachable env u = true ∧
        Json.getKey t "_server_url" = some (Json.str u)) := by
  have hfilter : ∀ (us : List String) (c0 : Cache),
      discover_tools env (us.filter (isReachable env)) c0 = discover_tools env us c0 := by
    intro us
    induction us with
    | nil => intro c0; rfl
    | cons u rest ih =>
        intro c0
        by_cases hr : isReachable env u = true
        · rw [List.filter_cons_of_pos hr]
          simp only [discover_tools]
          rw [ih]
        · have hr' : isReachable env u = false := by
            cases hb : isReachable env u
            · rfl
            · exact absurd hb hr
          rw [List.filter_cons_of_neg (by simp [hr'])]
          have hstep := discover_step_unreachable env c0 u hr'
          simp only [discover_tools, hstep]
          rw [ih]
          simp
  have htag : ∀ (us : List String) (c0 : Cache),
      ∀ t ∈ (discover_tools env us c0).2,
        ∃ u, u ∈ us ∧ isReachable env u = true ∧
          Json.getKey t "_server_url" = some (Json.str u) := by
    intro us
    induction us with
    | nil => intro c0 t ht; simp [discover_tools] at ht
    | cons u rest ih =>
        intro c0 t ht
        simp only [discover_tools, List.mem_append] at ht
        rcases ht with ht | ht
        · refine ⟨u, List.mem_cons_self u rest, ?_, ?_⟩
          · cases henv : env u with
            | initFail => rw [discover_step_unreachable env c0 u (by simp [isReachable, henv])] at ht; simp at ht
            | listFail => rw [discover_step_unreachable env c0 u (by simp [isReachable, henv])] at ht; simp at ht
            | ok fetched v => simp [isReachable, henv]
          · cases henv : env u with
            | initFail => rw [discover_step_unreachable env c0 u (by simp [isReachable, henv])] at ht; simp at ht
            | listFail => rw [discover_step_unreachable env c0 u (by simp [isReachable, henv])] at ht; simp at ht
            | ok fetched v =>
                simp only [discover_step, henv] at ht
                have : ∃ t0, t = tagTool u t0 := by
                  cases hc : cacheGet c0 u with
                  | none =>
                      simp only [hc, List.mem_map] at ht
                      obtain ⟨t0, _, h0⟩ := ht
                      exact ⟨t0, h0.symm⟩
                  | some entry =>
                      by_cases hv : entry.version = v
                      · simp only [hc, if_pos hv, List.mem_map] at ht
                        obtain ⟨t0, _, h0⟩ := ht
                        exact ⟨t0, h0.symm⟩
                      · simp only [hc, if_neg hv, List.mem_map] at ht
                        obtain ⟨t0, _, h0⟩ := ht
                        exact ⟨t0, h0.symm⟩
                obtain ⟨t0, h0⟩ := this
                rw [h0]
                exact Json.getKey_setKey_self t0 "_server_url" (Json.str u)
        · obtain ⟨u2, hu2, hru, hkey⟩ := ih _ t ht
          exact ⟨u2, List.mem_cons_of_mem u hu2, hru, hkey⟩
  refine ⟨hfilter urls c, ?_, htag urls c⟩
  intro hnone
  have : urls.filter (isReachable env) = [] := by
    rw [List.filter_eq_nil_iff]
    intro a ha
    simp [hnone a ha]
  rw [← hfilter urls c, this]
  rfl

/-- Witness for C4: two servers of which only the second is reachable;
discovery returns exactly the reachable server's tagged tool. -/
theorem discover_returns_reachable_subset_witness :
    (discover_tools
        (fun u => if u = "http://up" then
            ServerOutcome.ok [JsonObj.cons "name" (Json.str "t1") .nil] (some (Json.str "v1"))
          else ServerOutcome.initFail)
        (List.filter (isReachable (fun u => if u = "http://up" then
            ServerOutcome.ok [JsonObj.cons "name" (Json.str "t1") .nil] (some (Json.str "v1"))
          else ServerOutcome.initFail)) ["http://down", "http://up"]) []) =
      discover_tools
        (fun u => if u = "http://up" then
            ServerOutcome.ok [JsonObj.cons "name" (Json.str "t1") .nil] (some (Json.str "v1"))
          else ServerOutcome.initFail)
        ["http://down", "http://up"] [] :=
  (discover_returns_reachable_subset
    (fun u => if u = "http://up" then
        ServerOutcome.ok [JsonObj.cons "name" (Json.str "t1") .nil] (some (Json.str "v1"))
      else ServerOutcome.initFail)
    ["http://down", "http://up"] []).1

/-- C8: tagging is applied to a fresh copy of each descriptor
(`dict(t)`), never to the stored one: whenever every tool a server
serves and every tool in the starting cache lack the `_server_url` key,
every tool in the cache after a discovery pass still lacks it.  Since
the conclusion re-establishes the hypothesis on the cache, cached
entries stay untagged across arbitrarily many passes, and an entry
reused by a later pass is unaffected by the tagging done in earlier
passes. -/
theorem discover_cache_never_tagged
    (env : String → ServerOutcome) (urls : List String) (c : Cache)
    (henv : ∀ url ts v, env url = .ok ts v →
      ∀ t ∈ ts, Json.getKey t "_server_url" = none)
    (hc : ∀ url e, cacheGet c url = some e →
      ∀ t ∈ e.tools, Json.getKey t "_server_url" = none) :
    ∀ url e, cacheGet (discover_tools env urls c).1 url = some e →
      ∀ t ∈ e.tools, Json.getKey t "_server_url" = none := by
  induction urls generalizing c with
  | nil => exact hc
  | cons u rest ih =>
      have hstep : ∀ url e, cacheGet (discover_step env c u).1 url = some e →
          ∀ t ∈ e.tools, Json.getKey t "_server_url" = none := by
        intro url e he t ht
        cases henu : env u with
        | initFail =>
            rw [discover_step_unreachable env c u (by simp [isReachable, henu])] at he
            exact hc url e he t ht
        | listFail =>
            rw [discover_step_unreachable env c u (by simp [isReachable, henu])] at he
            exact hc url e he t ht
        | ok fetched v =>
            simp only [discover_step, henu] at he
            have fresh : cacheGet (cacheSet c u ⟨v, fetched⟩) url = some e →
                Json.getKey t "_server_url" = none := by
              intro he2
              rw [cacheGet_cacheSet] at he2
              by_cases hu : url = u
              · rw [if_pos hu] at he2
                have : e = ⟨v, fetched⟩ := by injection he2 with h2; exact h2.symm
                subst this
                exact henv u fetched v henu t ht
              · rw [if_neg hu] at he2
                exact hc url e he2 t ht
            cases hcu : cacheGet c u with
            | none =>
                simp only [hcu] at he
                exact fresh he
            | some entry =>
                by_cases hv : entry.version = v
                · simp only [hcu, if_pos hv] at he
                  exact hc url e he t ht
                · simp only [hcu, if_neg hv] at he
                  exact fresh he
      exact ih (discover_step env c u).1 hstep

/-- Witness for C8: one pass over a server serving one untagged tool,
starting from the empty cache; the stored descriptor is still untagged
(even though the discovery result tags its copy). -/
theorem discover_cache_never_tagged_witness :
    Json.getKey (JsonObj.cons "name" (Json.str "t1") .nil) "_server_url" = none :=
  discover_cache_never_tagged
    (fun _ => ServerOutcome.ok [JsonObj.cons "name" (Json.str "t1") .nil]
      (some (Json.str "v1")))
    ["http://s"] []
    (by
      intro url ts v h t ht
      cases h
      simp at ht
      subst ht
      decide)
    (by intro url e h; simp [cacheGet] at h)
    "http://s" ⟨some (Json.str "v1"), [JsonObj.cons "name" (Json.str "t1") .nil]⟩
    (by decide) (JsonObj.cons "name" (Json.str "t1") .nil) (by decide)

/-- Every message produced by the `type` check is non-empty. -/
theorem checkType_nonempty (s : JsonObj) (inst : Json) (m : String)
    (h : checkType s inst = some m) : 0 < m.length := by
  unfold checkType at h
  split at h
  · split at h
    · exact absurd h (by simp)
    · injection h with h
      rw [← h, String.length_append]
      have : 0 < "value is not of type ".length := by decide
      omega
  · exact absurd h (by simp)

/-- Every message produced by the `required` check is non-empty. -/
theorem requiredErr_nonempty : ∀ (reqs : JsonArr) (entries : JsonObj) (m : String),
    requiredErr reqs entries = some m → 0 < m.length
  | .nil, _, m => by simp [requiredErr]
  | .cons (.str name) tl, entries, m => by
      intro h
      have heq : requiredErr (JsonArr.cons (Json.str name) tl) entries =
          if (Json.getKey entries name).isSome then requiredErr tl entries
          else some ("missing required property " ++ name) := rfl
      rw [heq] at h
      split at h
      · exact requiredErr_nonempty tl entries m h
      · injection h with h
        rw [← h, String.length_append]
        have : 0 < "missing required property ".length := by decide
        omega
  | .cons .null tl, entries, m => fun h => requiredErr_nonempty tl entries m h
  | .cons (.bool b) tl, entries, m => fun h => requiredErr_nonempty tl entries m h
  | .cons (.num n) tl, entries, m => fun h => requiredErr_nonempty tl entries m h
  | .cons (.arr xs) tl, entries, m => fun h => requiredErr_nonempty tl entries m h
  | .cons (.obj o) tl, entries, m => fun h => requiredErr_nonempty tl entries m h

/-- Every message produced by the `required` keyword check is non-empty. -/
theorem checkRequired_nonempty (s : JsonObj) (inst : Json) (m : String)
    (h : checkRequired s inst = some m) : 0 < m.length := by
  unfold checkRequired at h
  split at h
  next _ _ reqs entries _ => exact requiredErr_nonempty reqs entries m h
  next => exact absurd h (by simp)

/-- Every message produced by the `enum` check is non-empty. -/
theorem checkEnum_nonempty (s : JsonObj) (inst : Json) (m : String)
    (h : checkEnum s inst = some m) : 0 < m.length := by
  unfold checkEnum at h
  split at h
  · split at h
    · exact absurd h (by simp)
    · injection h with h
      rw [← h]
      decide
  · exact absurd h (by simp)

/-- Every violation message of the modelled validator is non-empty. -/
theorem jsValidate_nonempty (schema inst : Json) (m : String)
    (h : jsValidate schema inst = some m) : 0 < m.length := by
  unfold jsValidate at h
  split at h
  next s =>
    cases h1 : checkType s inst with
    | some m1 =>
        rw [h1] at h
        simp at h
        rw [← h]
        exact checkType_nonempty s inst m1 h1
    | none =>
        rw [h1] at h
        cases h2 : checkRequired s inst with
        | some m2 =>
            rw [h2] at h
            simp at h
            rw [← h]
            exact checkRequired_nonempty s inst m2 h2
        | none =>
            rw [h2] at h
            simp at h
            exact checkEnum_nonempty s inst m h
  next => exact absurd h (by simp)

/-- A turn either performed no tool-invocation POST, or its result is
one of the three outcomes that follow the POST. -/
theorem run_turn_cases (p : String → Option Json) (env : TurnEnv) (tools : List Tool)
    (i : String) :
    (run_turn p env tools i).2 = false ∨
    (run_turn p env tools i).1 = TurnResult.toolCallFailed ∨
    (∃ j r, (run_turn p env tools i).1 = TurnResult.summarized j r) ∨
    (∃ j, (run_turn p env tools i).1 = TurnResult.rawToolResult j) := by
  by_cases hq : (pyLower (pyStrip i) = "quit" ∨ pyLower (pyStrip i) = "exit")
  · left
    simp [run_turn, hq]
  · simp only [run_turn]
    rw [if_neg hq]
    repeat' split
    all_goals simp

/-- C10: a tool that declares no `args_schema` is validated against the
default schema accepting any object, so every JSON object passes and
`validate_args_against_tool` returns `none`. -/
theorem validate_no_schema_accepts_objects (tool : Tool) (entries : JsonObj)
    (hnone : Json.getKey tool "args_schema" = none) :
    validate_args_against_tool tool (Json.obj entries) = none := by
  unfold validate_args_against_tool
  rw [hnone]
  rfl

/-- Witness for C10: a tool carrying only a name accepts the empty
argument object. -/
theorem validate_no_schema_accepts_objects_witness :
    validate_args_against_tool (JsonObj.cons "name" (Json.str "t") .nil)
      (Json.obj .nil) = none :=
  validate_no_schema_accepts_objects (JsonObj.cons "name" (Json.str "t") .nil)
    .nil (by decide)

/-- C6: every failing validation produces a non-empty message, and a
turn whose result reports a validation failure never performed the
tool-invocation POST. -/
theorem validation_failure_blocks_invocation :
    (∀ tool args msg, validate_args_against_tool tool args = some msg →
      0 < msg.length) ∧
    (∀ p env tools i msg,
      (run_turn p env tools i).1 = TurnResult.validationFailed msg →
      (run_turn p env tools i).2 = false) := by
  constructor
  · intro tool args msg h
    unfold validate_args_against_tool at h
    exact jsValidate_nonempty _ args msg h
  · intro p env tools i msg h
    rcases run_turn_cases p env tools i with h2 | h2 | ⟨j, r, h2⟩ | ⟨j, h2⟩
    · exact h2
    · rw [h] at h2; exact absurd h2 (by simp)
    · rw [h] at h2; exact absurd h2 (by simp)
    · rw [h] at h2; exact absurd h2 (by simp)

/-- Witness for C6: a use-tool turn whose empty `args` object violates
the tool's `required` schema gets a non-empty message and performs no
tool-invocation POST. -/
theorem validation_failure_blocks_invocation_witness :
    0 < "missing required property a".length ∧
    (run_turn vParse vEnv [vTool] "hi").2 = false :=
  ⟨validation_failure_blocks_invocation.1 vTool (Json.obj .nil)
      "missing required property a" (by decide),
   validation_failure_blocks_invocation.2 vParse vEnv [vTool] "hi"
      "missing required property a" (by decide)⟩

/-- C5: when the model reply is not syntactically valid JSON, the turn
presents the raw reply as plain assistant text (no POST, not an error)
and the session continues with the next turn. -/
theorem malformed_reply_presented_as_text
    (p : String → Option Json) (env : TurnEnv) (tools : List Tool) (i reply : String)
    (rest : List (String × TurnEnv))
    (hq : ¬(pyLower (pyStrip i) = "quit" ∨ pyLower (pyStrip i) = "exit"))
    (hllm : env.llm1 = Except.ok reply)
    (hparse : p reply = none) :
    run_turn p env tools i = (TurnResult.assistantText reply, false) ∧
    session_loop p tools ((i, env) :: rest) =
      TurnResult.assistantText reply :: session_loop p tools rest := by
  have h1 : run_turn p env tools i = (TurnResult.assistantText reply, false) := by
    simp only [run_turn, hllm, hparse]
    rw [if_neg hq]
  refine ⟨h1, ?_⟩
  simp only [session_loop]
  rw [h1]

/-- Witness for C5: a prose reply is echoed and the session goes on. -/
theorem malformed_reply_presented_as_text_witness :
    run_turn (fun _ => none) wEnv [cexTool] "hello" =
      (TurnResult.assistantText "plain text", false) :=
  (malformed_reply_presented_as_text (fun _ => none) wEnv [cexTool] "hello"
    "plain text" [] (by decide) rfl rfl).1

/-- C9: a use-tool decision whose `tool` or `server_url` field is falsy
(absent, empty string, or any other falsy value) is reported as an
incomplete tool call, with no POST, no lookup outcome (`toolNotFound` is
a different result), and the session continues. -/
theorem falsy_tool_fields_incomplete
    (p : String → Option Json) (env : TurnEnv) (tools : List Tool) (i reply : String)
    (d : JsonObj) (rest : List (String × TurnEnv))
    (hq : ¬(pyLower (pyStrip i) = "quit" ∨ pyLower (pyStrip i) = "exit"))
    (hllm : env.llm1 = Except.ok reply)
    (hparse : p reply = some (Json.obj d))
    (haction : Json.getKey d "action" = some (Json.str "use_tool"))
    (hfalsy : optFalsy (Json.getKey d "tool") = true ∨
      optFalsy (Json.getKey d "server_url") = true) :
    run_turn p env tools i = (TurnResult.incompleteToolCall (Json.obj d), false) ∧
    session_loop p tools ((i, env) :: rest) =
      TurnResult.incompleteToolCall (Json.obj d) :: session_loop p tools rest := by
  have h1 : run_turn p env tools i =
      (TurnResult.incompleteToolCall (Json.obj d), false) := by
    rcases hfalsy with hf | hf <;>
      simp [run_turn, hllm, hparse, haction, hq, hf]
  refine ⟨h1, ?_⟩
  simp only [session_loop]
  rw [h1]

/-- Witness for C9: a decision whose `tool` field is the empty string is
reported as incomplete, not as tool-not-found. -/
theorem falsy_tool_fields_incomplete_witness :
    run_turn
      (fun _ => some (Json.obj (.cons "action" (Json.str "use_tool")
        (.cons "tool" (Json.str "")
          (.cons "server_url" (Json.str "http://s") .nil)))))
      wEnv [cexTool] "hi" =
      (TurnResult.incompleteToolCall (Json.obj (.cons "action" (Json.str "use_tool")
        (.cons "tool" (Json.str "")
          (.cons "server_url" (Json.str "http://s") .nil)))), false) :=
  (falsy_tool_fields_incomplete
    (fun _ => some (Json.obj (.cons "action" (Json.str "use_tool")
      (.cons "tool" (Json.str "")
        (.cons "server_url" (Json.str "http://s") .nil)))))
    wEnv [cexTool] "hi" "plain text"
    (.cons "action" (Json.str "use_tool")
      (.cons "tool" (Json.str "")
        (.cons "server_url" (Json.str "http://s") .nil)))
    [] (by decide) rfl rfl (by decide) (by decide)).1

/-- Counterexample to C7: a model reply that parses as JSON but is not a
JSON object (here the array text `[1, 2]`) makes the turn crash —
`decision.get("action")` raises `AttributeError`, which no handler
catches — and the session does not continue to the next queued turn: the
trace ends at the crash instead of appending it and processing the
second turn. -/
theorem unrecognized_json_reply_crashes :
    run_turn cexParse cexEnv [cexTool] "hello" = (TurnResult.crash, false) ∧
    session_loop cexParse [cexTool] [("hello", cexEnv), ("again", cexEnvNext)] =
      [TurnResult.crash] ∧
    session_loop cexParse [cexTool] [("hello", cexEnv), ("again", cexEnvNext)] ≠
      TurnResult.crash ::
        session_loop cexParse [cexTool] [("again", cexEnvNext)] := by
  refine ⟨by decide, by decide, ?_⟩
  decide

/-- C7 (amended): provided the model reply, whenever it parses as JSON,
parses to a JSON object, a turn never crashes; every non-quit turn
reports its result and the session continues with the remaining turns;
and the only non-loop exit is discovering zero tools at session start. -/
theorem per_turn_failures_reported_and_continue
    (p : String → Option Json) (env : TurnEnv) (tools : List Tool) (i : String)
    (rest : List (String × TurnEnv))
    (hobj : ∀ r, env.llm1 = Except.ok r →
      p r = none ∨ ∃ d, p r = some (Json.obj d)) :
    (run_turn p env tools i).1 ≠ TurnResult.crash ∧
    ((run_turn p env tools i).1 ≠ TurnResult.quit →
      session_loop p tools ((i, env) :: rest) =
        (run_turn p env tools i).1 :: session_loop p tools rest) ∧
    (∀ envd c urls turns,
      agent_loop p envd c urls turns = none ↔
        (discover_tools envd urls c).2 = []) := by
  have hcrash : (run_turn p env tools i).1 ≠ TurnResult.crash := by
    by_cases hq : (pyLower (pyStrip i) = "quit" ∨ pyLower (pyStrip i) = "exit")
    · simp [run_turn, hq]
    · cases hllm : env.llm1 with
      | error e => simp [run_turn, hq, hllm]
      | ok reply =>
          rcases hobj reply hllm with hp | ⟨d, hp⟩
          · simp [run_turn, hq, hllm, hp]
          · simp only [run_turn, hllm, hp]
            rw [if_neg hq]
            repeat' split
            all_goals simp
  refine ⟨hcrash, ?_, ?_⟩
  · intro hnq
    rcases hrun : run_turn p env tools i with ⟨res, b⟩
    rw [hrun] at hnq hcrash
    simp only [session_loop]
    rw [hrun]
    cases res <;> simp_all
  · intro envd c urls turns
    rcases hl : (discover_tools envd urls c).2 with _ | ⟨t, ts⟩ <;>
      simp [agent_loop, hl]

/-- Witness for C7 (amended): a prose-reply turn does not crash. -/
theorem per_turn_failures_reported_and_continue_witness :
    (run_turn (fun _ => none) wEnv [cexTool] "hello").1 ≠ TurnResult.crash :=
  (per_turn_failures_reported_and_continue (fun _ => none) wEnv [cexTool] "hello"
    [] (fun _ _ => Or.inl rfl)).1
